import Mathlib

/-!
Verification of the MACD weekly screener (scanner.py).

The development shallowly embeds the screener's pure core over exact
rationals: the resilient market-data client (binance_get), the symbol
universe loader (get_all_usdt_spot_symbols), the indicator engine
(ema / macd), the signal detector and scorer (crossed_up / screen), and
the orchestrator's per-symbol loop and final sort (main).  Numbers are
modelled as exact rationals; a parsed volume cell carries the float
special values NaN and the infinities explicitly (EFloat), and screen's
ZeroDivisionError path at a zero minimum volume is modelled as an
explicit error result.
-/

attribute [local semireducible] Rat.add Rat.mul Rat.sub Rat.inv

set_option maxRecDepth 100000

/-- Responses a single mirror can give to one GET attempt: an HTTP
response with a status code and an (already decoded) JSON body, or a
network-level request exception (timeout, connection reset). The body is
abstracted to a natural number token. -/
inductive MirrorResp where
  | http (code : Nat) (body : Nat)
  | netErr (tag : Nat)
deriving DecidableEq, Repr

/-- Errors binance_get can raise: an HTTPError carrying the status code
(produced both by the explicit 451/403/429/5xx branch and by
raise_for_status), a network-level RequestException, or the
RuntimeError of the unreachable final line. -/
inductive ReqError where
  | httpError (code : Nat)
  | reqException (tag : Nat)
  | unexpectedFlow
deriving DecidableEq, Repr

/-- Model of binance_get (scanner.py lines 29-58).  The list holds the
response each mirror would give, in the (shuffled) order the loop visits
them; the second argument is the running last_err.  Per the source: a
451/403/429 or 5xx status records an HTTPError and moves to the next
mirror; any other status in 400-599 makes raise_for_status raise an
HTTPError which the broad `except requests.RequestException` clause
catches, also moving to the next mirror; a status outside 400-599
returns the decoded body; a network exception is caught and recorded
likewise.  When the mirrors are exhausted the last recorded error is
raised, or RuntimeError if none was recorded. -/
def binance_get : List MirrorResp → Option ReqError → Except ReqError Nat
  | [], last_err =>
    match last_err with
    | some e => Except.error e
    | none => Except.error ReqError.unexpectedFlow
  | r :: rest, last_err =>
    match r with
    | MirrorResp.http code body =>
      if code == 451 || code == 403 || code == 429 || (500 ≤ code && code < 600) then
        binance_get rest (some (ReqError.httpError code))
      else if 400 ≤ code && code < 600 then
        binance_get rest (some (ReqError.httpError code))
      else
        Except.ok body
    | MirrorResp.netErr tag => binance_get rest (some (ReqError.reqException tag))

/-- A mirror response that does not end the loop with a success: any
status in 400-599, or a network exception. -/
def respFails : MirrorResp → Bool
  | MirrorResp.http code _ => 400 ≤ code && code < 600
  | MirrorResp.netErr _ => true

/-- The error binance_get records for a failing mirror response. -/
def respError : MirrorResp → ReqError
  | MirrorResp.http code _ => ReqError.httpError code
  | MirrorResp.netErr tag => ReqError.reqException tag

/-- Checks whether the pattern occurs at the head of the text, character
by character. -/
def matchesAt : List Char → List Char → Bool
  | [], _ => true
  | _ :: _, [] => false
  | a :: as, b :: bs => a == b && matchesAt as bs

/-- Substring containment on character lists, the semantics of the
Python expression `x in name` for strings. -/
def containsSub (needle : List Char) : List Char → Bool
  | [] => needle.isEmpty
  | c :: rest => matchesAt needle (c :: rest) || containsSub needle rest

/-- Lexicographic comparison of character lists by code point, the order
Python's sorted() uses on strings. -/
def lexLe : List Char → List Char → Bool
  | [], _ => true
  | _ :: _, [] => false
  | a :: as, b :: bs =>
    if a.toNat < b.toNat then true
    else if b.toNat < a.toNat then false
    else lexLe as bs

/-- Lexicographic order on strings by code point. -/
def strLe (a b : String) : Bool := lexLe a.data b.data

/-- The fields of one entry of exchangeInfo's symbols array that
get_all_usdt_spot_symbols inspects. -/
structure SymbolInfo where
  symbol : String
  status : String
  quoteAsset : String
  isSpotTradingAllowed : Bool
deriving DecidableEq, Repr

/-- The leveraged-token name fragments excluded by the universe loader
(scanner.py line 67). -/
def leveraged_patterns : List String := ["UPUSDT", "DOWNUSDT", "BULLUSDT", "BEARUSDT"]

/-- The per-entry filter of the universe loader (scanner.py lines 65-68):
status TRADING, quote asset USDT, spot trading allowed, and the name
contains none of the leveraged-token fragments. -/
def keep_symbol (s : SymbolInfo) : Bool :=
  s.status == "TRADING" && s.quoteAsset == "USDT" && s.isSpotTradingAllowed &&
    !(leveraged_patterns.any fun pat => containsSub pat.data s.symbol.data)

/-- Model of get_all_usdt_spot_symbols (scanner.py lines 61-70) applied
to a decoded exchangeInfo snapshot: keep the entries passing the filter,
take their names, and return them sorted lexicographically. -/
def get_all_usdt_spot_symbols (data : List SymbolInfo) : List String :=
  (((data.filter keep_symbol).map SymbolInfo.symbol).mergeSort strLe)

/-- The Python exception screen can raise: the ZeroDivisionError of
line 110's avg_qv6/(10*min_qv) when the configured minimum volume is
zero (Python float division by a zero divisor raises regardless of the
numerator). -/
inductive PyError where
  | zeroDivision
deriving DecidableEq, Repr

/-- A parsed numeric cell in float semantics: a finite value (idealized
as an exact rational), NaN (what pd.to_numeric coerces malformed cells
to), or an infinity (which pd.to_numeric can also produce, e.g. from an
overflowing numeral). -/
inductive EFloat where
  | num (q : ℚ)
  | nan
  | pinf
  | ninf
deriving DecidableEq, Repr

/-- Float addition on parsed cells: NaN is absorbing, opposite
infinities give NaN, an infinity otherwise dominates, and finite values
add exactly. -/
def EFloat.add : EFloat → EFloat → EFloat
  | EFloat.nan, _ => EFloat.nan
  | _, EFloat.nan => EFloat.nan
  | EFloat.pinf, EFloat.ninf => EFloat.nan
  | EFloat.ninf, EFloat.pinf => EFloat.nan
  | EFloat.pinf, _ => EFloat.pinf
  | _, EFloat.pinf => EFloat.pinf
  | EFloat.ninf, _ => EFloat.ninf
  | _, EFloat.ninf => EFloat.ninf
  | EFloat.num a, EFloat.num b => EFloat.num (a + b)

/-- Division of a cell by a positive count, as in a mean. -/
def EFloat.divNat : EFloat → Nat → EFloat
  | EFloat.num a, n => EFloat.num (a / n)
  | EFloat.nan, _ => EFloat.nan
  | EFloat.pinf, _ => EFloat.pinf
  | EFloat.ninf, _ => EFloat.ninf

/-- math.isnan on a parsed cell. -/
def EFloat.isnan : EFloat → Bool
  | EFloat.nan => true
  | _ => false

/-- The float comparison cell < q against a finite rational: NaN
compares false, +inf is never below a finite value, -inf always is. -/
def EFloat.ltQ : EFloat → ℚ → Bool
  | EFloat.num a, b => decide (a < b)
  | EFloat.nan, _ => false
  | EFloat.pinf, _ => false
  | EFloat.ninf, _ => true

/-- The smoothing factor 2/(span+1) of a non-adjusted exponentially
weighted mean with the given span, as used by pandas ewm. -/
def alpha (span : Nat) : ℚ := 2 / (span + 1)

/-- The recursive tail of the exponentially weighted mean: given the
previous output value, each input x produces a*x + (1-a)*prev. -/
def ema1 (a : ℚ) : ℚ → List ℚ → List ℚ
  | _, [] => []
  | prev, x :: xs =>
    let cur := a * x + (1 - a) * prev
    cur :: ema1 a cur xs

/-- Model of ema (scanner.py line 86), that is
s.ewm(span=span, adjust=False).mean(): the non-adjusted exponentially
weighted moving average with smoothing factor 2/(span+1), seeded with
the first input value. -/
def ema (s : List ℚ) (span : Nat) : List ℚ :=
  match s with
  | [] => []
  | x :: rest => x :: ema1 (alpha span) x rest

/-- Model of macd (scanner.py lines 87-90): the MACD line is
ema(close, fast) - ema(close, slow), the signal line is the ema of the
MACD line over the signal span, the histogram is their pointwise
difference. -/
def macd (close : List ℚ) (fast slow signal : Nat) : List ℚ × List ℚ × List ℚ :=
  let m := List.zipWith (fun a b => a - b) (ema close fast) (ema close slow)
  let s := ema m signal
  (m, s, List.zipWith (fun a b => a - b) m s)

/-- Model of crossed_up (scanner.py lines 92-93). -/
def crossed_up (a1_prev a1_now a2_prev a2_now : ℚ) : Bool :=
  decide (a1_prev ≤ a2_prev) && decide (a1_now > a2_now)

/-- The on_top_small condition of screen (scanner.py line 108): MACD is
above the signal line and either was at or below it a bar ago or sits
within max(1e-9, 0.15*|signal|) of it. -/
def on_top_small (m_prev m_now s_prev s_now : ℚ) : Bool :=
  decide (m_now > s_now) &&
    (decide (m_prev ≤ s_prev) || decide (|m_now - s_now| < max (1 / 10 ^ 9) (15 / 100 * |s_now|)))

/-- One bar of the normalized weekly frame, restricted to the columns
screen reads.  The quote-asset volume is a parsed float cell and can be
NaN or infinite, exactly what pd.to_numeric(errors="coerce") can hand
downstream. -/
structure Bar where
  close : ℚ
  quoteAssetVolume : EFloat
deriving DecidableEq, Repr

/-- The close-price column of a frame. -/
def closes (df : List Bar) : List ℚ := df.map Bar.close

/-- Positional access from the end of a column: iloc l k models
column.iloc[-k], with an irrelevant default for out-of-range access. -/
def iloc (l : List ℚ) (k : Nat) : ℚ := l.getD (l.length - k) 0

/-- The last close of the frame, float(df["close"].iloc[-1]). -/
def lastClose (df : List Bar) : ℚ := iloc (closes df) 1

/-- The trailing 6-bar mean of quote-asset volume,
float(df["quoteAssetVolume"].tail(6).mean()).  pandas mean skips NaN
cells (infinities are not skipped), sums the rest in float semantics and
divides by the count of non-NaN cells; the result is NaN when the whole
window is NaN, and can be infinite when an infinity survives the sum. -/
def avg_qv6 (df : List Bar) : EFloat :=
  let window := (df.map Bar.quoteAssetVolume).drop (df.length - 6)
  let vals := window.filter fun c => !c.isnan
  if vals.length = 0 then EFloat.nan
  else EFloat.divNat (vals.foldl EFloat.add (EFloat.num 0)) vals.length

/-- The MACD line of the frame's close prices with the source's default
spans 12, 26, 9. -/
def macdLine (df : List Bar) : List ℚ := (macd (closes df) 12 26 9).1

/-- The signal line of the frame's close prices. -/
def signalLine (df : List Bar) : List ℚ := (macd (closes df) 12 26 9).2.1

/-- The histogram of the frame's close prices. -/
def histLine (df : List Bar) : List ℚ := (macd (closes df) 12 26 9).2.2

/-- m_prev, float(m.iloc[-2]). -/
def macdPrev (df : List Bar) : ℚ := iloc (macdLine df) 2

/-- m_now, float(m.iloc[-1]). -/
def macdNow (df : List Bar) : ℚ := iloc (macdLine df) 1

/-- s_prev, float(s.iloc[-2]). -/
def sigPrev (df : List Bar) : ℚ := iloc (signalLine df) 2

/-- s_now, float(s.iloc[-1]). -/
def sigNow (df : List Bar) : ℚ := iloc (signalLine df) 1

/-- h_prev, float(h.iloc[-2]). -/
def histPrev (df : List Bar) : ℚ := iloc (histLine df) 2

/-- h_now, float(h.iloc[-1]). -/
def histNow (df : List Bar) : ℚ := iloc (histLine df) 1

/-- The score formula of screen (scanner.py line 110) for a finite
average volume:
(1 if cut_up else 0) + (0.5 if on_top_small else 0)
+ (0.7 if h_now > h_prev else 0) + min(1.0, avg_qv6/(10*min_qv)).
The division here is the totalized rational one; the ZeroDivisionError
Python raises at min_qv = 0 is modelled separately in screen, which
consults this formula only with a nonzero divisor, so callers with a
nonzero min_qv sit in the region where the two agree. -/
def match_score (cut_up top_small : Bool) (h_prev h_now avg min_qv : ℚ) : ℚ :=
  (if cut_up then 1 else 0) + (if top_small then 1 / 2 else 0) +
    (if h_prev < h_now then 7 / 10 else 0) + min 1 (avg / (10 * min_qv))

/-- The score of line 110 when avg_qv6 is +inf (and min_qv is nonzero):
the volume term min(1.0, inf/(10*min_qv)) is 1 for a positive min_qv
and -inf for a negative one, in which case the whole float sum is
-inf. -/
def match_score_pinf (cut_up top_small : Bool) (h_prev h_now min_qv : ℚ) : WithBot ℚ :=
  if 0 < min_qv then
    (((if cut_up then 1 else 0) + (if top_small then 1 / 2 else 0) +
      (if h_prev < h_now then 7 / 10 else 0) + 1 : ℚ) : WithBot ℚ)
  else ⊥

/-- Round-half-to-even of a rational to an integer, the tie-breaking
rule of Python's round. -/
def half_even (x : ℚ) : ℤ :=
  let f := x.floor
  if x - f < 1 / 2 then f
  else if 1 / 2 < x - f then f + 1
  else if f % 2 = 0 then f else f + 1

/-- Python's round(x, ndigits) idealized over exact rationals:
round-half-to-even at the given decimal precision. -/
def py_round (ndigits : Nat) (x : ℚ) : ℚ :=
  (half_even (x * 10 ^ ndigits) : ℚ) / 10 ^ ndigits

/-- The record screen returns on a match (scanner.py lines 111-118),
every field rounded for reporting.  A reported average volume behind the
gate is finite or +inf (WithTop), never NaN or -inf; a reported score is
finite or -inf (WithBot); the totally ordered WithTop/WithBot carriers
coincide with the float order on these reachable values. -/
structure MatchRecord where
  close : ℚ
  avg_qv_6w : WithTop ℚ
  macd : ℚ
  signal : ℚ
  hist : ℚ
  score : WithBot ℚ
deriving DecidableEq

/-- The volume/price gate of screen (scanner.py lines 98-101) as a
boolean: the frame passes unless math.isnan(avg_qv6), or
avg_qv6 < min_qv in float semantics (so a -inf average is rejected here
while a +inf one is not), or the last close is below min_price. -/
def volume_price_gate (df : List Bar) (min_qv min_price : ℚ) : Bool :=
  !((avg_qv6 df).isnan || (avg_qv6 df).ltQ min_qv || decide (lastClose df < min_price))

/-- Model of screen (scanner.py lines 95-119): reject frames shorter
than 35 bars; reject when the 6-bar average quote volume is NaN or below
min_qv or the last close is below min_price (the isnan-only test lets a
+inf average through); qualify when (cut_up or on_top_small) and
m_now < 0 and h_now > 0.  On the qualification path line 110 divides by
10*min_qv, so a zero min_qv raises ZeroDivisionError there; otherwise
the rounded record with the score of line 110 is returned. -/
def screen (df : List Bar) (min_qv min_price : ℚ) : Except PyError (Option MatchRecord) :=
  if df.length < 35 then Except.ok none
  else
    let avg := avg_qv6 df
    if avg.isnan || avg.ltQ min_qv || decide (lastClose df < min_price) then Except.ok none
    else
      let cut_up := crossed_up (macdPrev df) (macdNow df) (sigPrev df) (sigNow df)
      let top_small := on_top_small (macdPrev df) (macdNow df) (sigPrev df) (sigNow df)
      if (cut_up || top_small) && decide (macdNow df < 0) && decide (histNow df > 0) then
        if 10 * min_qv = 0 then Except.error PyError.zeroDivision
        else
          match avg with
          | EFloat.num q =>
            Except.ok (some
              { close := py_round 8 (lastClose df)
                avg_qv_6w := (py_round 2 q : WithTop ℚ)
                macd := py_round 6 (macdNow df)
                signal := py_round 6 (sigNow df)
                hist := py_round 6 (histNow df)
                score := ((py_round 3 (match_score cut_up top_small (histPrev df) (histNow df)
                  q min_qv) : ℚ) : WithBot ℚ) })
          | EFloat.pinf =>
            Except.ok (some
              { close := py_round 8 (lastClose df)
                avg_qv_6w := ⊤
                macd := py_round 6 (macdNow df)
                signal := py_round 6 (sigNow df)
                hist := py_round 6 (histNow df)
                score := WithBot.map (py_round 3)
                  (match_score_pinf cut_up top_small (histPrev df) (histNow df) min_qv) })
          | EFloat.nan => Except.ok none
          | EFloat.ninf => Except.ok none
      else Except.ok none

/-- Whether screen returns a match: no exception and a record rather
than None.  The nan and ninf arms of screen's final match are
unreachable, since the gate has already rejected a NaN average and a
-inf average (the latter is below any finite min_qv). -/
def screen_matches (df : List Bar) (min_qv min_price : ℚ) : Bool :=
  match screen df min_qv min_price with
  | Except.ok (some _) => true
  | _ => false

/-- Whether a screen outcome is the ZeroDivisionError path. -/
def is_zero_division : Except PyError (Option MatchRecord) → Bool
  | Except.error PyError.zeroDivision => true
  | _ => false

/-- The reported average-volume field of a screen outcome, when it is a
match. -/
def reported_avg_qv : Except PyError (Option MatchRecord) → Option (WithTop ℚ)
  | Except.ok (some r) => some r.avg_qv_6w
  | _ => none

/-- The body of one iteration of main's per-symbol loop (scanner.py
lines 169-179): the fetch outcome is an Except value; a fetch exception
is logged and skipped, an empty frame is skipped, a screen exception
(the same try block wraps the screen call) is logged and skipped too,
otherwise a match is tagged with its symbol. -/
def scan_step (min_vol min_price : ℚ) (sym : String) (res : Except String (List Bar)) :
    Option (String × MatchRecord) :=
  match res with
  | Except.error _ => none
  | Except.ok df =>
    if df.isEmpty then none
    else
      match screen df min_vol min_price with
      | Except.error _ => none
      | Except.ok rec => rec.map fun r => (sym, r)

/-- The accumulation of main's loop over the universe in order. -/
def scan_loop (min_vol min_price : ℚ) : List (String × Except String (List Bar)) →
    List (String × MatchRecord)
  | [] => []
  | item :: rest =>
    match scan_step min_vol min_price item.1 item.2 with
    | some row => row :: scan_loop min_vol min_price rest
    | none => scan_loop min_vol min_price rest

/-- The sort key order of main's final sort (scanner.py line 183):
results.sort(key=lambda x: (x["score"], x["avg_qv_6w"]), reverse=True).
Row a may precede row b when a's key tuple is lexicographically at least
b's: greater score, or equal score and at-least avg_qv_6w. -/
def sort_key_le (a b : String × MatchRecord) : Bool :=
  decide (b.2.score < a.2.score) ||
    (decide (b.2.score = a.2.score) && decide (b.2.avg_qv_6w ≤ a.2.avg_qv_6w))

/-- The final descending stable sort of the aggregated matches. -/
def sortMatches (rows : List (String × MatchRecord)) : List (String × MatchRecord) :=
  rows.mergeSort sort_key_le

/-- Model of main's scan (scanner.py lines 168-183): run the loop over
the universe, skipping failures, then sort the matches by score then
average volume, descending. -/
def runScan (min_vol min_price : ℚ) (items : List (String × Except String (List Bar))) :
    List (String × MatchRecord) :=
  sortMatches (scan_loop min_vol min_price items)

/-- A close-price history used as a concrete test frame: 32 flat bars at
100, a drop to 0, a recovery through 50 to 160.  At the last bar the
MACD line crosses above its signal line while both are negative and the
histogram is positive. -/
def cexCloses : List ℚ := List.replicate 32 100 ++ [0, 50, 160]

/-- The concrete 35-bar frame built from cexCloses with every bar's
quote volume 1/3. -/
def cexDf : List Bar :=
  cexCloses.map fun c => { close := c, quoteAssetVolume := EFloat.num (1 / 3) }

/-- A 35-bar frame whose volume column is entirely NaN, so the 6-bar
average volume is NaN and the gate rejects it. -/
def nanVolDf : List Bar := List.replicate 35 { close := 100, quoteAssetVolume := EFloat.nan }

/-- The cexCloses frame with the last bar's quote volume +inf: the 6-bar
average is +inf, which the isnan-only gate of line 100 lets through. -/
def infVolDf : List Bar :=
  (cexCloses.take 34).map (fun c => { close := c, quoteAssetVolume := EFloat.num (1 / 3) }) ++
    [{ close := 160, quoteAssetVolume := EFloat.pinf }]

/-- A concrete exchangeInfo entry for an ordinary USDT spot symbol. -/
def sampleInfo : SymbolInfo :=
  { symbol := "BTCUSDT", status := "TRADING", quoteAsset := "USDT", isSpotTradingAllowed := true }

/-- A concrete aggregated match row. -/
def sampleRow1 : String × MatchRecord :=
  ("AAAUSDT",
    { close := 1, avg_qv_6w := ((2 : ℚ) : WithTop ℚ), macd := 0, signal := 0, hist := 0,
      score := ((3 : ℚ) : WithBot ℚ) })

/-- A second concrete aggregated match row with the same score and a
larger average volume. -/
def sampleRow2 : String × MatchRecord :=
  ("BBBUSDT",
    { close := 1, avg_qv_6w := ((5 : ℚ) : WithTop ℚ), macd := 0, signal := 0, hist := 0,
      score := ((3 : ℚ) : WithBot ℚ) })

theorem ema1_length (a : ℚ) : ∀ (xs : List ℚ) (prev : ℚ), (ema1 a prev xs).length = xs.length
  | [], _ => rfl
  | _ :: xs, prev => by simp [ema1, ema1_length a xs]

theorem ema1_rec (a : ℚ) : ∀ (xs : List ℚ) (prev : ℚ) (i : Nat), i < xs.length →
    (prev :: ema1 a prev xs).getD (i + 1) 0 =
      a * xs.getD i 0 + (1 - a) * (prev :: ema1 a prev xs).getD i 0
  | [], _, i, h => by simp at h
  | x :: xs, prev, 0, _ => by simp [ema1]
  | x :: xs, prev, i + 1, h => by
    have ih := ema1_rec a xs (a * x + (1 - a) * prev) i (by simpa using h)
    simpa [ema1] using ih

/-- C2: for every span at least 1 and non-empty input, the ema of the
indicator engine satisfies exactly the non-adjusted EWMA recurrence with
smoothing factor 2/(span+1): the output has the input's length, its
first element is the first input value, and each later element is
a*x[i] + (1-a)*EMA[i-1]. -/
theorem ema_recurrence (span : Nat) (hspan : 1 ≤ span) (xs : List ℚ) (hxs : xs ≠ []) :
    (ema xs span).length = xs.length ∧
    (ema xs span).getD 0 0 = xs.getD 0 0 ∧
    ∀ i, i + 1 < xs.length →
      (ema xs span).getD (i + 1) 0 =
        alpha span * xs.getD (i + 1) 0 + (1 - alpha span) * (ema xs span).getD i 0 := by
  match xs with
  | [] => exact absurd rfl hxs
  | x :: rest =>
    refine ⟨by simp [ema, ema1_length], by simp [ema], ?_⟩
    intro i hi
    have := ema1_rec (alpha span) rest x i (by simpa using hi)
    simpa [ema] using this

theorem ema_recurrence_witness :
    (ema [1, 2] 9).getD (0 + 1) 0 =
      alpha 9 * ([1, 2] : List ℚ).getD (0 + 1) 0 + (1 - alpha 9) * (ema [1, 2] 9).getD 0 0 :=
  (ema_recurrence 9 (by decide) [1, 2] (by decide)).2.2 0 (by decide)

theorem binance_get_fail_step (r : MirrorResp) (rest : List MirrorResp) (acc : Option ReqError)
    (h : respFails r = true) :
    binance_get (r :: rest) acc = binance_get rest (some (respError r)) := by
  match r with
  | MirrorResp.netErr tag => rfl
  | MirrorResp.http code body =>
    simp only [respFails, Bool.and_eq_true, decide_eq_true_eq] at h
    simp only [binance_get, respError]
    by_cases h451 : code == 451 || code == 403 || code == 429 || (500 ≤ code && code < 600)
    · rw [if_pos h451]
    · rw [if_neg h451, if_pos]
      simp only [Bool.and_eq_true, decide_eq_true_eq]
      omega

theorem binance_get_ok_step (code body : Nat) (rest : List MirrorResp) (acc : Option ReqError)
    (h : respFails (MirrorResp.http code body) = false) :
    binance_get (MirrorResp.http code body :: rest) acc = Except.ok body := by
  have h' : ¬ (400 ≤ code ∧ code < 600) := by
    simpa [respFails] using h
  simp only [binance_get]
  have hc1 : ¬ ((code == 451 || code == 403 || code == 429 || (500 ≤ code && code < 600)) = true) := by
    simp only [Bool.or_eq_true, beq_iff_eq, Bool.and_eq_true, decide_eq_true_eq]
    omega
  have hc2 : ¬ ((400 ≤ code && code < 600) = true) := by
    simp only [Bool.and_eq_true, decide_eq_true_eq]
    omega
  rw [if_neg hc1, if_neg hc2]

theorem binance_get_all_fail (mirrors : List MirrorResp) :
    ∀ (acc : Option ReqError) (last : MirrorResp),
      (∀ r ∈ mirrors, respFails r = true) → mirrors.getLast? = some last →
      binance_get mirrors acc = Except.error (respError last) := by
  induction mirrors with
  | nil => intro acc last _ hlast; simp at hlast
  | cons r rest ih =>
    intro acc last hfail hlast
    rw [binance_get_fail_step r rest acc (hfail r (by simp))]
    match rest, hlast with
    | [], hlast =>
      simp only [List.getLast?_singleton, Option.some.injEq] at hlast
      subst hlast
      rfl
    | r2 :: rest2, hlast =>
      have : (r2 :: rest2).getLast? = some last := by
        rw [List.getLast?_cons_cons] at hlast
        exact hlast
      exact ih _ last (fun x hx => hfail x (by simp [hx])) this

theorem binance_get_skip_failing (pre : List MirrorResp) :
    ∀ (rest : List MirrorResp) (acc : Option ReqError),
      (∀ r ∈ pre, respFails r = true) →
      ∃ acc2, binance_get (pre ++ rest) acc = binance_get rest acc2 := by
  induction pre with
  | nil => intro rest acc _; exact ⟨acc, rfl⟩
  | cons r pre2 ih =>
    intro rest acc hfail
    rw [List.cons_append, binance_get_fail_step r (pre2 ++ rest) acc (hfail r (by simp))]
    exact ih rest _ fun x hx => hfail x (by simp [hx])

/-- C4 counterexample: the first mirror answers 404 (a 4xx other than
403/429/451), yet the call does not fail immediately with that error: it
moves on to the second mirror and returns its 2xx body. -/
theorem binance_get_404_not_immediate :
    binance_get [MirrorResp.http 404 0, MirrorResp.http 200 42] none = Except.ok 42 ∧
      Except.ok 42 ≠ (Except.error (ReqError.httpError 404) : Except ReqError Nat) :=
  ⟨rfl, fun h => by injection h⟩

/-- C4 (amended): every response with status 400-599 - including 4xx
other than 403/429/451, whose HTTPError from raise_for_status is caught
by the broad except clause - and every network exception makes the call
move to the next mirror; a response with status outside 400-599 returns
its decoded body immediately; and when every mirror fails, the call
raises the error recorded for the last mirror, only after all mirrors
were exhausted. -/
theorem binance_get_failover (mirrors : List MirrorResp) :
    (∀ (pre post : List MirrorResp) (code body : Nat),
      mirrors = pre ++ MirrorResp.http code body :: post →
      (∀ r ∈ pre, respFails r = true) →
      respFails (MirrorResp.http code body) = false →
      binance_get mirrors none = Except.ok body) ∧
    (∀ last : MirrorResp, (∀ r ∈ mirrors, respFails r = true) →
      mirrors.getLast? = some last →
      binance_get mirrors none = Except.error (respError last)) := by
  constructor
  · intro pre post code body hsplit hpre hok
    subst hsplit
    obtain ⟨acc2, hacc⟩ := binance_get_skip_failing pre (MirrorResp.http code body :: post) none hpre
    rw [hacc, binance_get_ok_step code body post acc2 hok]
  · intro last hfail hlast
    exact binance_get_all_fail mirrors none last hfail hlast

theorem binance_get_failover_witness :
    binance_get [MirrorResp.netErr 7, MirrorResp.http 503 0, MirrorResp.http 200 99] none =
      Except.ok 99 :=
  (binance_get_failover [MirrorResp.netErr 7, MirrorResp.http 503 0, MirrorResp.http 200 99]).1
    [MirrorResp.netErr 7, MirrorResp.http 503 0] [] 200 99 rfl (by decide) (by decide)

theorem scan_loop_eq_filterMap (min_vol min_price : ℚ) :
    ∀ items : List (String × Except String (List Bar)),
      scan_loop min_vol min_price items =
        items.filterMap fun it => scan_step min_vol min_price it.1 it.2 := by
  intro items
  induction items with
  | nil => rfl
  | cons item rest ih =>
    rw [scan_loop, List.filterMap_cons]
    match h : scan_step min_vol min_price item.1 item.2 with
    | some row => rw [ih]
    | none => rw [ih]

/-- C3: the per-symbol loop isolates failures: a universe entry whose
fetch raised an error contributes nothing and the scan of the remaining
entries is unchanged, so runScan never fails from a single instrument's
error; and runScan is exactly the sorted aggregation of the per-symbol
successes. -/
theorem runScan_isolates_failures (min_vol min_price : ℚ) :
    (∀ (pre post : List (String × Except String (List Bar))) (sym : String) (e : String),
      runScan min_vol min_price (pre ++ (sym, Except.error e) :: post) =
        runScan min_vol min_price (pre ++ post)) ∧
    (∀ items, runScan min_vol min_price items =
      sortMatches (items.filterMap fun it => scan_step min_vol min_price it.1 it.2)) := by
  constructor
  · intro pre post sym e
    unfold runScan
    rw [scan_loop_eq_filterMap, scan_loop_eq_filterMap]
    simp [List.filterMap_append, List.filterMap_cons, scan_step]
  · intro items
    unfold runScan
    rw [scan_loop_eq_filterMap]

theorem lexLe_total : ∀ a b : List Char, (lexLe a b || lexLe b a) = true
  | [], b => by simp [lexLe]
  | _ :: _, [] => by simp [lexLe]
  | a :: as, b :: bs => by
    simp only [lexLe]
    rcases Nat.lt_trichotomy a.toNat b.toNat with h | h | h
    · simp [h]
    · have h1 : ¬ a.toNat < b.toNat := by omega
      have h2 : ¬ b.toNat < a.toNat := by omega
      simpa [h1, h2] using lexLe_total as bs
    · simp [h, Nat.lt_asymm h]

theorem lexLe_trans : ∀ a b c : List Char,
    lexLe a b = true → lexLe b c = true → lexLe a c = true
  | [], _, _, _, _ => by simp [lexLe]
  | _ :: _, [], _, h, _ => by simp [lexLe] at h
  | _ :: _, _ :: _, [], _, h2 => by simp [lexLe] at h2
  | a :: as, b :: bs, c :: cs, h1, h2 => by
    simp only [lexLe] at h1 h2 ⊢
    rcases Nat.lt_trichotomy a.toNat b.toNat with hab | hab | hab <;>
      rcases Nat.lt_trichotomy b.toNat c.toNat with hbc | hbc | hbc
    · simp [show a.toNat < c.toNat by omega]
    · simp [show a.toNat < c.toNat by omega]
    · rw [if_neg (by omega), if_pos (by omega)] at h2
      exact absurd h2 (by simp)
    · simp [show a.toNat < c.toNat by omega]
    · rw [if_neg (by omega), if_neg (by omega)]
      rw [if_neg (by omega), if_neg (by omega)] at h1
      rw [if_neg (by omega), if_neg (by omega)] at h2
      exact lexLe_trans as bs cs h1 h2
    · rw [if_neg (by omega), if_pos (by omega)] at h2
      exact absurd h2 (by simp)
    · rw [if_neg (by omega), if_pos (by omega)] at h1
      exact absurd h1 (by simp)
    · rw [if_neg (by omega), if_pos (by omega)] at h1
      exact absurd h1 (by simp)
    · rw [if_neg (by omega), if_pos (by omega)] at h1
      exact absurd h1 (by simp)

theorem strLe_total (a b : String) : (strLe a b || strLe b a) = true :=
  lexLe_total a.data b.data

theorem strLe_trans (a b c : String) (h1 : strLe a b = true) (h2 : strLe b c = true) :
    strLe a c = true :=
  lexLe_trans a.data b.data c.data h1 h2

/-- C7: on any instrument-metadata snapshot the universe loader returns
exactly the names of entries with status TRADING, quote asset USDT and
spot trading allowed, minus those containing a leveraged-token pattern,
as a lexicographically sorted permutation of the filtered snapshot. -/
theorem get_all_usdt_spot_symbols_spec :
    (∀ (data : List SymbolInfo) (name : String),
      name ∈ get_all_usdt_spot_symbols data ↔
        ∃ s ∈ data, s.symbol = name ∧ s.status = "TRADING" ∧ s.quoteAsset = "USDT" ∧
          s.isSpotTradingAllowed = true ∧
          ∀ pat ∈ leveraged_patterns, containsSub pat.data name.data = false) ∧
    (∀ data : List SymbolInfo,
      List.Pairwise (fun a b => strLe a b = true) (get_all_usdt_spot_symbols data)) ∧
    (∀ data : List SymbolInfo,
      List.Perm (get_all_usdt_spot_symbols data)
        ((data.filter keep_symbol).map SymbolInfo.symbol)) := by
  refine ⟨?_, ?_, ?_⟩
  · intro data name
    unfold get_all_usdt_spot_symbols
    rw [List.mem_mergeSort, List.mem_map]
    constructor
    · rintro ⟨s, hs, rfl⟩
      rw [List.mem_filter] at hs
      obtain ⟨hmem, hkeep⟩ := hs
      simp only [keep_symbol, Bool.and_eq_true, beq_iff_eq, Bool.not_eq_true',
        List.any_eq_false] at hkeep
      exact ⟨s, hmem, rfl, hkeep.1.1.1, hkeep.1.1.2, hkeep.1.2,
        fun pat hp => by simpa using hkeep.2 pat hp⟩
    · rintro ⟨s, hmem, rfl, hstatus, hquote, hspot, hpat⟩
      refine ⟨s, ?_, rfl⟩
      rw [List.mem_filter]
      refine ⟨hmem, ?_⟩
      simp only [keep_symbol, Bool.and_eq_true, beq_iff_eq, Bool.not_eq_true',
        List.any_eq_false]
      exact ⟨⟨⟨hstatus, hquote⟩, hspot⟩, fun pat hp => by simpa using hpat pat hp⟩
  · intro data
    exact List.sorted_mergeSort strLe_trans strLe_total _
  · intro data
    exact List.mergeSort_perm _ _

theorem sort_key_le_total (a b : String × MatchRecord) : (sort_key_le a b || sort_key_le b a) = true := by
  simp only [sort_key_le, Bool.or_eq_true, Bool.and_eq_true, decide_eq_true_eq]
  rcases lt_trichotomy a.2.score b.2.score with h | h | h
  · exact Or.inr (Or.inl h)
  · rcases le_total b.2.avg_qv_6w a.2.avg_qv_6w with h2 | h2
    · exact Or.inl (Or.inr ⟨h.symm, h2⟩)
    · exact Or.inr (Or.inr ⟨h, h2⟩)
  · exact Or.inl (Or.inl h)

theorem sort_key_le_trans (a b c : String × MatchRecord)
    (h1 : sort_key_le a b = true) (h2 : sort_key_le b c = true) : sort_key_le a c = true := by
  simp only [sort_key_le, Bool.or_eq_true, Bool.and_eq_true, decide_eq_true_eq] at h1 h2 ⊢
  rcases h1 with h1 | ⟨h1e, h1v⟩ <;> rcases h2 with h2 | ⟨h2e, h2v⟩
  · exact Or.inl (h2.trans h1)
  · exact Or.inl (h2e ▸ h1)
  · exact Or.inl (h1e ▸ h2)
  · exact Or.inr ⟨h2e.trans h1e, h2v.trans h1v⟩

/-- C8: the orchestrator's final sort orders the matches by score
descending with ties broken by 6-bar average quote volume descending,
and re-sorting an already-sorted match list yields the same order. -/
theorem sortMatches_spec :
    (∀ rows : List (String × MatchRecord),
      List.Pairwise
        (fun a b => b.2.score < a.2.score ∨
          (b.2.score = a.2.score ∧ b.2.avg_qv_6w ≤ a.2.avg_qv_6w))
        (sortMatches rows)) ∧
    (∀ rows : List (String × MatchRecord), sortMatches (sortMatches rows) = sortMatches rows) := by
  constructor
  · intro rows
    have h := List.sorted_mergeSort sort_key_le_trans sort_key_le_total rows
    refine h.imp ?_
    intro a b hab
    simpa only [sort_key_le, Bool.or_eq_true, Bool.and_eq_true, decide_eq_true_eq] using hab
  · intro rows
    exact List.mergeSort_of_sorted (List.sorted_mergeSort sort_key_le_trans sort_key_le_total rows)

theorem screen_success_facts (df : List Bar) (min_qv min_price : ℚ)
    (h : screen_matches df min_qv min_price = true) :
    35 ≤ df.length ∧
    ((∃ q, avg_qv6 df = EFloat.num q ∧ min_qv ≤ q) ∨ avg_qv6 df = EFloat.pinf) ∧
    min_price ≤ lastClose df ∧
    macdNow df < 0 ∧ histNow df > 0 ∧
    (crossed_up (macdPrev df) (macdNow df) (sigPrev df) (sigNow df) = true ∨
      on_top_small (macdPrev df) (macdNow df) (sigPrev df) (sigNow df) = true) := by
  simp only [screen_matches, screen] at h
  by_cases h35 : df.length < 35
  · rw [if_pos h35] at h
    simp at h
  · rw [if_neg h35] at h
    by_cases hgate :
        ((avg_qv6 df).isnan || (avg_qv6 df).ltQ min_qv ||
          decide (lastClose df < min_price)) = true
    · rw [if_pos hgate] at h
      simp at h
    · rw [if_neg hgate] at h
      simp only [Bool.or_eq_true, not_or, decide_eq_true_eq] at hgate
      obtain ⟨⟨hnan, hlt⟩, hclose⟩ := hgate
      by_cases hcond :
          ((crossed_up (macdPrev df) (macdNow df) (sigPrev df) (sigNow df) ||
              on_top_small (macdPrev df) (macdNow df) (sigPrev df) (sigNow df)) &&
            decide (macdNow df < 0) && decide (histNow df > 0)) = true
      · simp only [Bool.and_eq_true, Bool.or_eq_true, decide_eq_true_eq] at hcond
        refine ⟨by omega, ?_, not_lt.mp hclose, hcond.1.2, hcond.2, hcond.1.1⟩
        cases havg : avg_qv6 df with
        | num q =>
          refine Or.inl ⟨q, rfl, ?_⟩
          rw [havg] at hlt
          simp only [EFloat.ltQ, decide_eq_true_eq] at hlt
          exact le_of_not_lt hlt
        | nan =>
          rw [havg] at hnan
          simp [EFloat.isnan] at hnan
        | pinf => exact Or.inr rfl
        | ninf =>
          rw [havg] at hlt
          simp [EFloat.ltQ] at hlt
      · rw [if_neg hcond] at h
        simp at h

/-- C6 counterexample: the cexCloses frame with a +inf quote volume in
the window has a +inf 6-bar average; line 100's isnan-only test lets it
through the gate and screen returns a match, so the gate neither rejects
an infinite average nor guarantees gate-passers a finite one. -/
theorem screen_inf_gate_cex :
    avg_qv6 infVolDf = EFloat.pinf ∧
      volume_price_gate infVolDf (1 / 3) 0 = true ∧
      screen_matches infVolDf (1 / 3) 0 = true :=
  ⟨by decide, by decide, by decide⟩

/-- C6 (amended): the volume/price gate returns no match whenever the
6-bar average quote volume is NaN - the only non-finite case line 100
tests - or below min_qv in float order (which also rejects a -inf
average), or the last close is below min_price; a +inf average passes
the isnan-only test, so a frame screen lets through the gate has an
average that is either finite and at least min_qv or +inf, and a last
close at least min_price. -/
theorem screen_gate_spec (df : List Bar) (min_qv min_price : ℚ) :
    (volume_price_gate df min_qv min_price = false →
      screen df min_qv min_price = Except.ok none) ∧
    (avg_qv6 df = EFloat.nan → volume_price_gate df min_qv min_price = false) ∧
    (avg_qv6 df = EFloat.ninf → volume_price_gate df min_qv min_price = false) ∧
    (screen_matches df min_qv min_price = true →
      ((∃ q, avg_qv6 df = EFloat.num q ∧ min_qv ≤ q) ∨ avg_qv6 df = EFloat.pinf) ∧
        min_price ≤ lastClose df) := by
  refine ⟨?_, ?_, ?_, ?_⟩
  · intro hgate
    simp only [volume_price_gate, Bool.not_eq_false'] at hgate
    by_cases h35 : df.length < 35
    · simp only [screen, if_pos h35]
    · simp only [screen]
      rw [if_neg h35, if_pos hgate]
  · intro havg
    simp [volume_price_gate, havg, EFloat.isnan]
  · intro havg
    simp [volume_price_gate, havg, EFloat.ltQ]
  · intro h
    obtain ⟨_, havg, hprice, _⟩ := screen_success_facts df min_qv min_price h
    exact ⟨havg, hprice⟩

theorem screen_gate_spec_witness : screen nanVolDf 1 1 = Except.ok none :=
  (screen_gate_spec nanVolDf 1 1).1 (by decide)

/-- C1 counterexample: at min_qv = 0 the frame cexDf passes both gates
and satisfies the qualification conditions, yet screen raises
ZeroDivisionError at the score division of line 110 instead of
returning the match. -/
theorem screen_zero_minvol_cex :
    volume_price_gate cexDf 0 0 = true ∧
      (macdNow cexDf < 0 ∧ histNow cexDf > 0 ∧
        crossed_up (macdPrev cexDf) (macdNow cexDf) (sigPrev cexDf) (sigNow cexDf) = true) ∧
      is_zero_division (screen cexDf 0 0) = true :=
  ⟨by decide, ⟨by decide, by decide, by decide⟩, by decide⟩

/-- C1 (amended): for every frame passing the 35-bar gate and the
volume/price gate, and for a nonzero configured minimum volume (at
min_qv = 0 the score division of line 110 raises ZeroDivisionError
instead), screen returns a match exactly when m_now < 0 and h_now > 0
and (crossed_up or on_top_small) hold of the last two points of the MACD
triple computed over the full close history. -/
theorem screen_qualifies_iff (df : List Bar) (min_qv min_price : ℚ)
    (h35 : ¬ df.length < 35) (hgate : volume_price_gate df min_qv min_price = true)
    (hmq : min_qv ≠ 0) :
    screen_matches df min_qv min_price = true ↔
      (macdNow df < 0 ∧ histNow df > 0 ∧
        (crossed_up (macdPrev df) (macdNow df) (sigPrev df) (sigNow df) = true ∨
          on_top_small (macdPrev df) (macdNow df) (sigPrev df) (sigNow df) = true)) := by
  simp only [volume_price_gate, Bool.not_eq_true'] at hgate
  have hgate2 := hgate
  simp only [screen_matches, screen]
  rw [if_neg h35, hgate, if_neg Bool.false_ne_true]
  by_cases hc : ((crossed_up (macdPrev df) (macdNow df) (sigPrev df) (sigNow df) ||
      on_top_small (macdPrev df) (macdNow df) (sigPrev df) (sigNow df)) &&
      decide (macdNow df < 0) && decide (histNow df > 0)) = true
  · rw [if_pos hc]
    have hz : ¬ (10 * min_qv = 0) := by
      simpa using mul_ne_zero (by norm_num : (10 : ℚ) ≠ 0) hmq
    rw [if_neg hz]
    simp only [Bool.or_eq_false_iff, decide_eq_false_iff_not] at hgate2
    cases havg : avg_qv6 df with
    | num q =>
      simp only [havg]
      exact iff_of_true trivial (by
        simp only [Bool.and_eq_true, Bool.or_eq_true, decide_eq_true_eq] at hc
        tauto)
    | nan =>
      rw [havg] at hgate2
      simp [EFloat.isnan] at hgate2
    | pinf =>
      simp only [havg]
      exact iff_of_true trivial (by
        simp only [Bool.and_eq_true, Bool.or_eq_true, decide_eq_true_eq] at hc
        tauto)
    | ninf =>
      rw [havg] at hgate2
      simp [EFloat.ltQ] at hgate2
  · rw [if_neg hc]
    refine iff_of_false (by simp) ?_
    intro hr
    apply hc
    simp only [Bool.and_eq_true, Bool.or_eq_true, decide_eq_true_eq]
    tauto

theorem screen_qualifies_iff_witness : screen_matches cexDf (1 / 3) 0 = true :=
  (screen_qualifies_iff cexDf (1 / 3) 0 (by decide) (by decide) (by decide)).mpr
    ⟨by decide, by decide, Or.inl (by decide)⟩

/-- C5 counterexample: with minimum average volume 1/3, the frame cexDf
produces a Match Record, but its reported (rounded to 2 decimals)
average 6-bar quote volume is 0.33, strictly below the configured
minimum 1/3 - so the invariant fails on the rounded numeric fields. -/
theorem screen_rounded_below_min_cex :
    reported_avg_qv (screen cexDf (1 / 3) 0) = some ((33 / 100 : ℚ) : WithTop ℚ) ∧
      (33 / 100 : ℚ) < 1 / 3 :=
  ⟨by decide, by decide⟩

/-- C5 (amended): every match screen produces satisfies the invariants
on the underlying unrounded quantities - the reported fields are their
fixed-precision roundings: the frame has at least 35 bars, the 6-bar
average quote volume is at least the configured minimum (finite at or
above it, or +inf), the last close is at least the minimum price,
m_now < 0, h_now > 0, and crossed_up or on_top_small held at the last
bar. -/
theorem screen_match_invariants (df : List Bar) (min_qv min_price : ℚ)
    (h : screen_matches df min_qv min_price = true) :
    35 ≤ df.length ∧
    ((∃ q, avg_qv6 df = EFloat.num q ∧ min_qv ≤ q) ∨ avg_qv6 df = EFloat.pinf) ∧
    min_price ≤ lastClose df ∧
    macdNow df < 0 ∧ histNow df > 0 ∧
    (crossed_up (macdPrev df) (macdNow df) (sigPrev df) (sigNow df) = true ∨
      on_top_small (macdPrev df) (macdNow df) (sigPrev df) (sigNow df) = true) :=
  screen_success_facts df min_qv min_price h

theorem screen_match_invariants_witness :
    35 ≤ cexDf.length ∧
    ((∃ q, avg_qv6 cexDf = EFloat.num q ∧ 1 / 3 ≤ q) ∨ avg_qv6 cexDf = EFloat.pinf) ∧
    (0 : ℚ) ≤ lastClose cexDf ∧
    macdNow cexDf < 0 ∧ histNow cexDf > 0 ∧
    (crossed_up (macdPrev cexDf) (macdNow cexDf) (sigPrev cexDf) (sigNow cexDf) = true ∨
      on_top_small (macdPrev cexDf) (macdNow cexDf) (sigPrev cexDf) (sigNow cexDf) = true) :=
  screen_match_invariants cexDf (1 / 3) 0 (by decide)

/-- C9: for fixed flags, histogram values and positive minimum volume,
the score of line 110 is monotonically non-decreasing in the average
volume, and its volume term never exceeds 1. -/
theorem match_score_monotone (cut_up top_small : Bool) (h_prev h_now min_qv a b : ℚ)
    (hmin : 0 < min_qv) (hab : a ≤ b) :
    match_score cut_up top_small h_prev h_now a min_qv ≤
      match_score cut_up top_small h_prev h_now b min_qv ∧
    min 1 (a / (10 * min_qv)) ≤ 1 := by
  refine ⟨?_, min_le_left _ _⟩
  unfold match_score
  have h10 : (0 : ℚ) < 10 * min_qv := by positivity
  have hdiv : a / (10 * min_qv) ≤ b / (10 * min_qv) := by
    gcongr
  exact add_le_add_left (min_le_min le_rfl hdiv) _

theorem match_score_monotone_witness :
    match_score true false 0 1 2 1 ≤ match_score true false 0 1 3 1 ∧
      min 1 ((2 : ℚ) / (10 * 1)) ≤ 1 :=
  match_score_monotone true false 0 1 1 2 3 (by decide) (by decide)

theorem runScan_isolates_failures_witness :
    runScan 1 1 ([("AAAUSDT", Except.ok cexDf)] ++ ("BBBUSDT", Except.error ("boom")) :: []) =
      runScan 1 1 ([("AAAUSDT", Except.ok cexDf)] ++ []) :=
  (runScan_isolates_failures 1 1).1 [("AAAUSDT", Except.ok cexDf)] [] ("BBBUSDT") ("boom")

theorem get_all_usdt_spot_symbols_spec_witness :
    "BTCUSDT" ∈ get_all_usdt_spot_symbols [sampleInfo] :=
  (get_all_usdt_spot_symbols_spec.1 [sampleInfo] ("BTCUSDT")).mpr
    ⟨sampleInfo, by decide, rfl, rfl, rfl, rfl, by decide⟩

theorem sortMatches_spec_witness :
    sortMatches (sortMatches [sampleRow1, sampleRow2]) = sortMatches [sampleRow1, sampleRow2] :=
  sortMatches_spec.2 [sampleRow1, sampleRow2]
